import Mathlib

/-!
Formal model of Aperio's streaming file-analysis engine.

The definitions below are a shallow embedding of:
  * `internal/analyze/analyze.go` — `AnalyzeFile`: binary sniffing
    (lines 59-106), the chunked line/word/char counter (lines 108-215);
  * the Go standard-library routines it calls: `unicode/utf8.DecodeRune`,
    `unicode/utf8.FullRune`, `unicode.IsSpace`;
  * `internal/run/run.go` — jobs resolution (lines 43-49) and the
    bounded-concurrency dispatcher (lines 52-85), as a step relation;
  * `internal/cli` — `ParseArgs` jobs clamping (`if cfg.Jobs < 1 { cfg.Jobs = 1 }`).

Bytes are modelled as `Nat` (values < 256 at all call sites), runes as `Nat`
codepoint values; Go `int` is modelled as `Int` where a value can go negative.
-/

/-- Go `utf8.RuneError` = U+FFFD. -/
def runeError : Nat := 0xFFFD

/-- The `x & 7` field of Go's `utf8.first` table: the encoded length a first
byte announces. ASCII bytes and bytes that cannot start a sequence
(0x80..0xC1, 0xF5..0xFF) carry 1. -/
def runeLen (b : Nat) : Nat :=
  if b ≤ 0x7F then 1
  else if b ≤ 0xC1 then 1
  else if b ≤ 0xDF then 2
  else if b ≤ 0xEF then 3
  else if b ≤ 0xF4 then 4
  else 1

/-- Lower bound of Go's `utf8.acceptRanges` entry for the second byte,
selected by the first byte: 0xE0 needs 0xA0.., 0xF0 needs 0x90.., others 0x80. -/
def acceptLo (b : Nat) : Nat :=
  if b = 0xE0 then 0xA0 else if b = 0xF0 then 0x90 else 0x80

/-- Upper bound of Go's `utf8.acceptRanges` entry for the second byte:
0xED allows ..0x9F (no surrogates), 0xF4 allows ..0x8F (≤ U+10FFFF), others 0xBF. -/
def acceptHi (b : Nat) : Nat :=
  if b = 0xED then 0x9F else if b = 0xF4 then 0x8F else 0xBF

/-- Go `utf8.DecodeRune p = (r, size)`.  Mirrors the stdlib control flow:
empty input gives `(RuneError, 0)`; ASCII decodes to itself with size 1;
a byte that cannot start a sequence gives `(RuneError, 1)`; a truncated
sequence (fewer bytes than the announced length) gives `(RuneError, 1)`;
a continuation byte outside its accept range gives `(RuneError, 1)`;
otherwise the codepoint is assembled from the masked payload bits.
The inner `[]` fallbacks are unreachable because the length guard has
already passed; they keep the match total. -/
def decodeTail4 (b b1 b2 : Nat) : List Nat → Nat × Nat
  | [] => (runeError, 1)
  | b3 :: _ =>
    if b3 < 0x80 ∨ 0xBF < b3 then (runeError, 1)
    else ((b % 8) * 262144 + (b1 % 64) * 4096 + (b2 % 64) * 64 + b3 % 64, 4)

/-- Third/fourth byte handling of `utf8.DecodeRune` (the `sz <= 3` check and
the `b2`/`b3` accept tests). -/
def decodeTail3 (b b1 : Nat) : List Nat → Nat × Nat
  | [] => (runeError, 1)
  | b2 :: bs2 =>
    if b2 < 0x80 ∨ 0xBF < b2 then (runeError, 1)
    else if runeLen b = 3 then ((b % 16) * 4096 + (b1 % 64) * 64 + b2 % 64, 3)
    else decodeTail4 b b1 b2 bs2

/-- Second byte handling of `utf8.DecodeRune` (the `accept` range test and
the `sz <= 2` check). -/
def decodeTail2 (b : Nat) : List Nat → Nat × Nat
  | [] => (runeError, 1)
  | b1 :: bs1 =>
    if b1 < acceptLo b ∨ acceptHi b < b1 then (runeError, 1)
    else if runeLen b = 2 then ((b % 32) * 64 + b1 % 64, 2)
    else decodeTail3 b b1 bs1

def decodeRune : List Nat → Nat × Nat
  | [] => (runeError, 0)
  | b :: bs =>
    if b ≤ 0x7F then (b, 1)
    else if b ≤ 0xC1 then (runeError, 1)
    else if 0xF5 ≤ b then (runeError, 1)
    else if bs.length + 1 < runeLen b then (runeError, 1)
    else decodeTail2 b bs

/-- Go `utf8.FullRune p`: whether `p` contains a full encoding (possibly an
invalid one) of its first rune.  `true` as soon as the announced length is
available, or as soon as a present continuation byte is already out of range
(the sequence can then never become valid, so it is "complete"). -/
def fullTail3 : List Nat → Bool
  | [] => false
  | b2 :: _ => decide (b2 < 0x80 ∨ 0xBF < b2)

/-- The `n > 1` branch of `utf8.FullRune`: a present second byte outside its
accept range makes the (invalid) rune complete. -/
def fullTail2 (b : Nat) : List Nat → Bool
  | [] => false
  | b1 :: bs1 =>
    if b1 < acceptLo b ∨ acceptHi b < b1 then true
    else fullTail3 bs1

def fullRune : List Nat → Bool
  | [] => false
  | b :: bs =>
    if runeLen b ≤ bs.length + 1 then true
    else fullTail2 b bs

/-- Go `unicode.IsSpace r`: the Unicode `White_Space` table as shipped in the
Go standard library (Latin-1 fast path plus the `unicode.White_Space` ranges). -/
def isSpace (r : Nat) : Bool :=
  decide (r = 9 ∨ r = 10 ∨ r = 11 ∨ r = 12 ∨ r = 13 ∨ r = 32 ∨ r = 0x85 ∨ r = 0xA0 ∨
    r = 0x1680 ∨ (0x2000 ≤ r ∧ r ≤ 0x200A) ∨ r = 0x2028 ∨ r = 0x2029 ∨ r = 0x202F ∨
    r = 0x205F ∨ r = 0x3000)

/-- The mutable counting state of `AnalyzeFile`'s text pass
(analyze.go lines 108-110). -/
structure Counts where
  lines : Nat
  words : Nat
  chars : Nat
  inWord : Bool
  lastWasNewline : Bool
deriving DecidableEq, Repr

/-- `lines, words, chars := 0, 0, 0; inWord := false; lastWasNewline := false`. -/
def initCounts : Counts :=
  { lines := 0, words := 0, chars := 0, inWord := false, lastWasNewline := false }

/-- One decoded codepoint fed through the counting state machine
(analyze.go lines 164-182, identical to lines 132-149): `chars` always
increments; a newline bumps `lines` and resets the word flag; any other
codepoint clears `lastWasNewline` and opens a word exactly on a
whitespace-to-non-whitespace transition. -/
def countRune (r : Nat) (s : Counts) : Counts :=
  if r = 10 then
    { s with chars := s.chars + 1, lines := s.lines + 1,
             inWord := false, lastWasNewline := true }
  else if isSpace r then
    { s with chars := s.chars + 1, lastWasNewline := false, inWord := false }
  else if s.inWord then
    { s with chars := s.chars + 1, lastWasNewline := false }
  else
    { s with chars := s.chars + 1, lastWasNewline := false,
             words := s.words + 1, inWord := true }

/-- The `for i < n` scan over one read chunk (analyze.go lines 156-183),
starting with carry `carry` in `leftover`.  Each step decodes at the current
position; a rune that is incomplete at the end of the buffer is stashed
(`leftN = copy(leftover[:], buf[i:n])`, line 160) and the loop breaks;
otherwise the rune is counted and the position advances by `size`.
The loop advances by `size ≥ 1` per iteration, so `bytes.length` bounds the
number of iterations and serves as structural fuel; the fuel-exhausted case
is unreachable whenever `fuel ≥ bytes.length`. -/
def scanChunkF : Nat → List Nat → Counts → List Nat → Counts × List Nat
  | _, [], s, carry => (s, carry)
  | 0, _ :: _, s, carry => (s, carry)
  | fuel + 1, b :: bs, s, carry =>
    let d := decodeRune (b :: bs)
    if d.1 = runeError ∧ d.2 = 1 ∧ fullRune (b :: bs) = false then
      (s, (b :: bs).take 4)
    else
      scanChunkF fuel ((b :: bs).drop d.2) (countRune d.1 s) carry

/-- The chunk scan entered at position `i = 0` with the given carry. -/
def scanChunk (bytes : List Nat) (s : Counts) (carry : List Nat) : Counts × List Nat :=
  scanChunkF bytes.length bytes s carry

/-- Processing of one `f.Read` result of `n = chunk.length` bytes
(analyze.go lines 118-184).  With a pending carry the leading bytes of the
chunk first try to complete it (lines 122-152): `need = min(4-leftN, n)`,
`seq = leftover[:leftN+need]`.  If `seq` is still an incomplete prefix the
enlarged carry is kept and the scan starts at `i = need`.  Otherwise the
completed rune is counted and the source sets `i = size - leftN` — a Go
`int` that is NEGATIVE when the completed sequence decodes as an invalid
rune (`size = 1 < leftN`); the following loop iteration then evaluates
`buf[i:n]` with `i < 0 ≤ n` and panics with a slice-bounds error.  That
crash is modelled as `none`. -/
def processChunk (s : Counts) (carry chunk : List Nat) : Option (Counts × List Nat) :=
  if chunk.length = 0 then some (s, carry)
  else if carry.length = 0 then some (scanChunk chunk s [])
  else
    let need := min (4 - carry.length) chunk.length
    let seq := carry ++ chunk.take need
    let d := decodeRune seq
    if d.1 = runeError ∧ d.2 = 1 ∧ fullRune seq = false then
      some (scanChunk (chunk.drop need) s seq)
    else if (d.2 : Int) - (carry.length : Int) < 0 then none
    else some (scanChunk (chunk.drop (d.2 - carry.length)) (countRune d.1 s) [])

/-- The read loop of the text pass over a list of successful reads
(analyze.go lines 116-195 with `err = nil` until the final `io.EOF`). -/
def processChunks : List (List Nat) → Counts → List Nat → Option (Counts × List Nat)
  | [], s, carry => some (s, carry)
  | c :: cs, s, carry =>
    match processChunk s carry c with
    | none => none
    | some (s2, c2) => processChunks cs s2 c2

/-- End-of-stream fallback for a pending incomplete sequence
(analyze.go lines 197-205): one extra character, never a newline, and it
opens a word if none is in progress. -/
def eofCarryStep (s : Counts) (carry : List Nat) : Counts :=
  if carry.length = 0 then s
  else
    { s with chars := s.chars + 1, lastWasNewline := false,
             words := if s.inWord then s.words else s.words + 1, inWord := true }

/-- Final-line accounting (analyze.go lines 207-210):
`if chars > 0 && !lastWasNewline { lines++ }`. -/
def finalLineStep (s : Counts) : Counts :=
  if 0 < s.chars ∧ s.lastWasNewline = false then { s with lines := s.lines + 1 } else s

/-- Everything that happens after the read loop ends at EOF. -/
def finishEOF (s : Counts) (carry : List Nat) : Counts :=
  finalLineStep (eofCarryStep s carry)

/-- The whole text-counting pass of `AnalyzeFile` over a given sequence of
read chunks, returning the `(lines, words, chars)` triple, or `none` for the
slice-bounds panic described at `processChunk`. -/
def countFile (chunks : List (List Nat)) : Option (Nat × Nat × Nat) :=
  match processChunks chunks initCounts [] with
  | none => none
  | some (s, carry) =>
    let f := finishEOF s carry
    some (f.lines, f.words, f.chars)

/-- `sniff[i] == 0x00` check of the binary sniff (analyze.go lines 69-74). -/
def hasNul (w : List Nat) : Bool :=
  w.any (fun b => b = 0)

/-- The UTF-8 sanity scan of the binary sniff (analyze.go lines 77-95):
decode left to right; on `(RuneError, 1)` the file is binary unless the
sequence is merely truncated by the end of the window (`!FullRune`), in
which case scanning stops and the window passes.  As in `scanChunkF`, the
window length is structural fuel bounding the iteration count. -/
def utf8ScanF : Nat → List Nat → Bool
  | _, [] => false
  | 0, _ :: _ => false
  | fuel + 1, b :: bs =>
    let d := decodeRune (b :: bs)
    if d.1 = runeError ∧ d.2 = 1 then
      if fullRune (b :: bs) then true else false
    else
      utf8ScanF fuel ((b :: bs).drop d.2)

/-- The sniff scan entered at `i = 0`. -/
def utf8Scan (w : List Nat) : Bool :=
  utf8ScanF w.length w

/-- The binary classifier of `AnalyzeFile` (analyze.go lines 59-106) on the
full file content: nothing is sniffed for an empty file (`Kind` stays
`"text"`); otherwise the first `min(size, 8192)` bytes are read with
`ReadAt` and checked for NUL and then for UTF-8 sanity.  `true` means the
file is classified binary. -/
def sniffIsBinary (content : List Nat) : Bool :=
  if content.length = 0 then false
  else
    let w := content.take 8192
    hasNul w || utf8Scan w

/-- The `Kind` field of `FileStats`: `""` (never assigned), `"text"` or
`"binary"` (analyze.go lines 16-17, 61, 98). -/
inductive KindT where
  | unknownK : KindT
  | textK : KindT
  | binaryK : KindT
deriving DecidableEq, Repr

/-- The observable part of one emitted `FileStats` record: classification,
the three counts, and the error flag.  In the source the count fields are
zero-valued unless the assignments at lines 212-214 (or the explicit zeroing
at lines 99-101) run. -/
structure FileRecord where
  kind : KindT
  lines : Nat
  words : Nat
  chars : Nat
  hasError : Bool
deriving DecidableEq, Repr

/-- One result of a call to `f.Read(buf)` in the counting loop: `n` bytes
together with a `nil`, `io.EOF`, or other non-nil error (Go allows `n > 0`
alongside an error, and the source processes those bytes first). -/
inductive ReadEv where
  | dataEv : List Nat → ReadEv
  | eofEv : List Nat → ReadEv
  | failEv : List Nat → ReadEv
deriving DecidableEq, Repr

/-- The bytes delivered by a read event. -/
def ReadEv.bytes : ReadEv → List Nat
  | dataEv bs => bs
  | eofEv bs => bs
  | failEv bs => bs

/-- How the read loop ended: a non-nil, non-EOF read error (lines 189-194),
or EOF with the final counting state and carry (line 186-187). -/
inductive ReadDone where
  | failed : ReadDone
  | okDone : Counts → List Nat → ReadDone
deriving DecidableEq, Repr

/-- The counting read loop (analyze.go lines 116-195) driven by a script of
read results.  Bytes of each read are processed (possibly panicking, `none`)
before the error is inspected; `io.EOF` breaks out, any other error aborts
with a failed record.  An exhausted script corresponds to a run still
waiting on further `Read` results and yields no record. -/
def runReads : List ReadEv → Counts → List Nat → Option ReadDone
  | [], _, _ => none
  | ev :: rest, s, carry =>
    match processChunk s carry ev.bytes with
    | none => none
    | some (s2, c2) =>
      match ev with
      | ReadEv.dataEv _ => runReads rest s2 c2
      | ReadEv.eofEv _ => some (ReadDone.okDone s2 c2)
      | ReadEv.failEv _ => some ReadDone.failed

/-- `AnalyzeFile` for one path (analyze.go lines 33-216), with the I/O
environment made explicit: whether `os.Stat` and `os.Open` succeed, the
on-disk content (sniffed via `ReadAt`), and the script of `f.Read` results.
Every branch of the source emits exactly one record on `out`; the only
way no record is emitted is the slice-bounds panic modelled by `none`.
On a stat or open failure the record keeps the zero `Kind` and counts;
a binary file short-circuits with zero counts; a read failure emits the
error record before `stat.Lines/Words/Chars` are ever assigned, so the
counts accumulated so far are dropped. -/
def analyzeOne (statOk openOk : Bool) (content : List Nat) (reads : List ReadEv) :
    Option FileRecord :=
  if statOk = false then some ⟨KindT.unknownK, 0, 0, 0, true⟩
  else if openOk = false then some ⟨KindT.unknownK, 0, 0, 0, true⟩
  else if sniffIsBinary content then some ⟨KindT.binaryK, 0, 0, 0, false⟩
  else
    match runReads reads initCounts [] with
    | none => none
    | some ReadDone.failed => some ⟨KindT.textK, 0, 0, 0, true⟩
    | some (ReadDone.okDone s carry) =>
      let f := finishEOF s carry
      some ⟨KindT.textK, f.lines, f.words, f.chars, false⟩

/-- `cli.ParseArgs` jobs normalization: `if cfg.Jobs < 1 { cfg.Jobs = 1 }`. -/
def clampJobsCli (j : Int) : Int :=
  if j < 1 then 1 else j

/-- `run.Run` jobs resolution (run.go lines 43-49):
`if jobs <= 0 { jobs = runtime.NumCPU() }; if jobs < 1 { jobs = 1 }`. -/
def resolveJobsRun (j numCPU : Int) : Int :=
  let j1 := if j ≤ 0 then numCPU else j
  if j1 < 1 then 1 else j1

/-- The concurrency ceiling actually used by the dispatcher for a requested
`--jobs` value: `run.Run` only ever receives a `Config` produced by
`cli.Parse`, so the CLI clamp runs first. -/
def effectiveJobs (requested numCPU : Int) : Int :=
  resolveJobsRun (clampJobsCli requested) numCPU

/-- Dispatcher state (run.go lines 52-85): `next` counts the paths the
submission loop has admitted so far (submission is in input order), `running`
holds the indices of analyses currently holding a semaphore slot, and `done`
lists, in arrival order, the indices whose `FileStats` has been delivered on
the `results` channel.  The channel is buffered with capacity `len(files)`,
so delivery never blocks. -/
structure DState where
  next : Nat
  running : List Nat
  done : List Nat
deriving DecidableEq, Repr

/-- Interleaving semantics of the dispatcher for `N` input paths and
semaphore capacity `jobs`:
`submit` is one iteration of the submission loop (`wg.Add(1); sem <- struct{}{};
go ...`), enabled only while a slot is free;
`finish` is one goroutine completing `AnalyzeFile` — it sends its single
record to the buffered `results` channel and releases its slot
(`defer func() { <-sem }()`).  Which in-flight analysis finishes first is
nondeterministic, which is exactly the "any arrival order" of the spec. -/
inductive DStep (jobs N : Nat) : DState → DState → Prop where
  | submit (s : DState) (hq : s.next < N) (hc : s.running.length < jobs) :
      DStep jobs N s { next := s.next + 1, running := s.running ++ [s.next], done := s.done }
  | finish (s : DState) (i : Nat) (hi : i ∈ s.running) :
      DStep jobs N s { next := s.next, running := s.running.erase i, done := s.done ++ [i] }

/-- States the dispatcher can reach from the start of `run.Run`'s fan-out. -/
inductive DReach (jobs N : Nat) : DState → Prop where
  | init : DReach jobs N { next := 0, running := [], done := [] }
  | step {s t : DState} : DReach jobs N s → DStep jobs N s t → DReach jobs N t

/-- A state in which `wg.Wait()` returns and `close(results)` runs: every
path has been submitted and no analysis is in flight. -/
def DTerminal (N : Nat) (s : DState) : Prop :=
  s.next = N ∧ s.running = []

/-- Result of checking the continuation bytes of one multi-byte sequence,
for the spec-level reading of the classifier. -/
inductive ContRes where
  | okR : List Nat → ContRes
  | badR : ContRes
  | shortR : ContRes
deriving DecidableEq, Repr

/-- Modelled from the spec, §4.1 step 3: examine the continuation bytes a
starter byte `b` announces.  A present byte outside its allowed range makes
the sequence complete-and-invalid (`badR`); running out of bytes first means
the sequence is merely truncated (`shortR`); otherwise the sequence is valid
and `okR` returns the remainder.  The allowed ranges are the RFC 3629
ranges shared with the decoder model. -/
def contTail4 : List Nat → ContRes
  | [] => ContRes.shortR
  | b3 :: bs3 =>
    if b3 < 0x80 ∨ 0xBF < b3 then ContRes.badR
    else ContRes.okR bs3

/-- Continuation check for the third byte of a 3- or 4-byte sequence. -/
def contTail3 (b : Nat) : List Nat → ContRes
  | [] => ContRes.shortR
  | b2 :: bs2 =>
    if b2 < 0x80 ∨ 0xBF < b2 then ContRes.badR
    else if runeLen b = 3 then ContRes.okR bs2
    else contTail4 bs2

def checkCont (b : Nat) : List Nat → ContRes
  | [] => ContRes.shortR
  | b1 :: bs1 =>
    if b1 < acceptLo b ∨ acceptHi b < b1 then ContRes.badR
    else if runeLen b = 2 then ContRes.okR bs1
    else contTail3 b bs1

/-- Modelled from the spec, §4.1: scan the sniff window left to right.
ASCII passes; a byte that cannot begin any sequence is an invalid sequence
that is complete within the window, hence Binary; for a multi-byte starter
the verdict follows `checkCont`: invalid-and-complete means Binary,
truncated-only means the scan stops and the window passes. -/
def specScanF : Nat → List Nat → Bool
  | _, [] => false
  | 0, _ :: _ => false
  | fuel + 1, b :: bs =>
    if b ≤ 0x7F then specScanF fuel bs
    else if b ≤ 0xC1 then true
    else if 0xF5 ≤ b then true
    else
      match checkCont b bs with
      | ContRes.okR rest => specScanF fuel rest
      | ContRes.badR => true
      | ContRes.shortR => false

/-- The spec-level window scan. -/
def specScanBinary (w : List Nat) : Bool :=
  specScanF w.length w

/-- Inductive invariant of the dispatcher: the submission counter never
passes `N`, at most `jobs` semaphore slots are held, and the delivered and
in-flight indices together are exactly the admitted indices, each once. -/
def dInv (jobs N : Nat) (s : DState) : Prop :=
  s.next ≤ N ∧ s.running.length ≤ jobs ∧
    (s.done ++ s.running).Perm (List.range s.next)



theorem dInv_of_reach {jobs N : Nat} {s : DState} (h : DReach jobs N s) :
    dInv jobs N s := by
  induction h with
  | init => exact ⟨Nat.zero_le N, Nat.zero_le jobs, by simp⟩
  | @step s t hr hst ih =>
    obtain ⟨h1, h2, h3⟩ := ih
    cases hst with
    | submit hq hc =>
      refine ⟨hq, by simpa using hc, ?_⟩
      have e1 : s.done ++ (s.running ++ [s.next]) = (s.done ++ s.running) ++ [s.next] := by
        simp
      dsimp only
      rw [e1, List.range_succ]
      exact h3.append_right _
    | finish i hi =>
      refine ⟨h1,
        le_trans (List.Sublist.length_le (List.erase_sublist i s.running)) h2, ?_⟩
      have e1 : (s.done ++ [i]) ++ s.running.erase i = s.done ++ (i :: s.running.erase i) := by
        simp
      dsimp only
      rw [e1]
      exact ((List.Perm.append_left s.done (List.perm_cons_erase hi)).symm).trans h3

theorem dReach_ex1 : DReach 1 1 ⟨1, [0], []⟩ :=
  DReach.step DReach.init (DStep.submit ⟨0, [], []⟩ (by decide) (by decide))

theorem dReach_ex2 : DReach 1 1 ⟨1, [], [0]⟩ :=
  DReach.step dReach_ex1 (DStep.finish ⟨1, [0], []⟩ 0 (by simp))

/-- C2: over `N` input paths with any ceiling `jobs ≥ 1`, every reachable
state of the dispatcher in which the batch-completion signal fires
(`wg.Wait` returns: all `N` paths submitted, none in flight) has delivered
the result indices `0, …, N-1` exactly once each — `N` results, no
duplicates, no omissions, whatever the arrival order and whatever record
(success or failure) each analysis produced; and any reachable state that is
not yet terminal can always take another step, so one path's failure record
never blocks the rest of the batch or the completion signal. -/
theorem dispatcher_delivers_all (jobs N : Nat) (hj : 1 ≤ jobs) (s : DState)
    (hr : DReach jobs N s) :
    (DTerminal N s →
      s.done.Perm (List.range N) ∧ s.done.length = N ∧ s.done.Nodup ∧
        ∀ i, i < N → i ∈ s.done)
    ∧ (DTerminal N s ∨ ∃ t, DStep jobs N s t) := by
  have inv := dInv_of_reach hr
  constructor
  · rintro ⟨hN, hrun⟩
    have hp : s.done.Perm (List.range N) := by
      have h3 := inv.2.2
      rw [hrun, hN] at h3
      simpa using h3
    refine ⟨hp, by simpa using hp.length_eq, ?_, ?_⟩
    · exact hp.nodup_iff.mpr (List.nodup_range N)
    · intro i hi
      exact hp.mem_iff.mpr (List.mem_range.mpr hi)
  · by_cases hterm : DTerminal N s
    · exact Or.inl hterm
    · right
      cases hcase : s.running with
      | cons i rest =>
        exact ⟨_, DStep.finish s i (by rw [hcase]; exact List.mem_cons_self i rest)⟩
      | nil =>
        have hN : s.next < N := by
          rcases Nat.lt_or_ge s.next N with h | h
          · exact h
          · exact absurd ⟨Nat.le_antisymm inv.1 h, hcase⟩ hterm
        exact ⟨_, DStep.submit s hN (by rw [hcase]; simpa using hj)⟩

/-- C2 witness: a concrete complete run over one path with ceiling 1. -/
theorem dispatcher_delivers_all_witness :
    (([0] : List Nat).Perm (List.range 1) ∧ ([0] : List Nat).length = 1 ∧
      ([0] : List Nat).Nodup ∧ ∀ i, i < 1 → i ∈ ([0] : List Nat)) := by
  have h := (dispatcher_delivers_all 1 1 (by decide) ⟨1, [], [0]⟩ dReach_ex2).1
    ⟨rfl, rfl⟩
  simpa using h

/-- C4: in every reachable dispatcher state with supplied ceiling
`jobs ≥ 1`, at most `jobs` analyses hold an admission slot, so at most
`jobs` file analyses execute concurrently. -/
theorem dispatcher_respects_jobs (jobs N : Nat) (_hj : 1 ≤ jobs) (s : DState)
    (hr : DReach jobs N s) : s.running.length ≤ jobs :=
  (dInv_of_reach hr).2.1

/-- C4 witness: the bound evaluated in a concrete reachable state. -/
theorem dispatcher_respects_jobs_witness :
    (DState.mk 1 [0] []).running.length ≤ 1 :=
  dispatcher_respects_jobs 1 1 (by decide) ⟨1, [0], []⟩ dReach_ex1

/-- C3 counterexample: requesting `--jobs 0` on a 4-CPU machine yields an
effective ceiling of 1, not `max 4 1 = 4`: `cli.ParseArgs` clamps any
requested value below 1 up to 1 before `run.Run` ever sees it, so the
`runtime.NumCPU()` default at run.go line 45 is unreachable. -/
theorem effectiveJobs_zero_not_numCPU :
    effectiveJobs 0 4 = 1 ∧ effectiveJobs 0 4 ≠ max 4 1 := by decide

/-- C3 (amended): for a requested jobs value of 0 or negative the effective
ceiling is 1 — the CLI clamp fires first — while `run.Run`'s own resolution
step, taken in isolation, would indeed give the number of processing units
clamped to a minimum of 1. -/
theorem effectiveJobs_nonpositive (req cpu : Int) (h : req ≤ 0) :
    effectiveJobs req cpu = 1 ∧ resolveJobsRun req cpu = max cpu 1 := by
  constructor
  · have h1 : clampJobsCli req = 1 := by
      unfold clampJobsCli
      rw [if_pos (by omega)]
    rw [effectiveJobs, h1]
    unfold resolveJobsRun
    norm_num
  · unfold resolveJobsRun
    rw [if_pos h]
    dsimp only
    split <;> omega

/-- C3 witness: requesting `--jobs -2` on an 8-CPU machine. -/
theorem effectiveJobs_nonpositive_witness :
    effectiveJobs (-2) 8 = 1 ∧ resolveJobsRun (-2) 8 = max 8 1 :=
  effectiveJobs_nonpositive (-2) 8 (by decide)

/-- C1 (failing case): the chunked counter is not observationally
transparent — splitting the bytes `0xE2 0x82 0x41` between two reads as
`[0xE2 0x82] / [0x41]` stashes the carry `E2 82`, completes it with `0x41`
into an invalid rune of decode size 1, sets `i = size - leftN = -1`
(analyze.go line 150) and panics, while processing the same bytes in a
single chunk yields `(lines, words, chars) = (1, 1, 3)`. -/
theorem chunking_not_transparent :
    countFile [[0xE2, 0x82], [0x41]] = none ∧
      countFile [[0xE2, 0x82, 0x41]] = some (1, 1, 3) := by
  constructor
  · rfl
  · rfl

/-- C10 (failing case): when the 2-byte carry `E2 82` is completed by the
next chunk's leading byte `0x41` and the completed sequence decodes as an
invalid rune (`DecodeRune` returns size 1), the source's position index
`i = size - leftN` is `-1`, outside `[0, n]`, and the subsequent
`buf[i:n]` slice is an out-of-range access — modelled by `processChunk`
returning `none`. -/
theorem carry_index_out_of_range :
    processChunk initCounts [0xE2, 0x82] [0x41] = none := by
  rfl

/-- C6: at end-of-stream with a non-empty `DecodeCarry`, the trailing bytes
count as exactly one character, are treated as non-whitespace (opening a
word when none is in progress, leaving `inWord` set), do not set
`lastWasNewline`, do not touch `lines`, and — shown on a file whose tail is
a truncated multi-byte sequence — the file stays classified text. -/
theorem eof_carry_fallback (s : Counts) (carry : List Nat) (h : carry ≠ []) :
    (eofCarryStep s carry).chars = s.chars + 1 ∧
      (eofCarryStep s carry).lastWasNewline = false ∧
      (eofCarryStep s carry).words = (if s.inWord then s.words else s.words + 1) ∧
      (eofCarryStep s carry).inWord = true ∧
      (eofCarryStep s carry).lines = s.lines ∧
      analyzeOne true true [97, 226] [ReadEv.dataEv [97, 226], ReadEv.eofEv []] =
        some ⟨KindT.textK, 1, 1, 2, false⟩ := by
  have hl : ¬ carry.length = 0 := by
    simpa using h
  unfold eofCarryStep
  rw [if_neg hl]
  refine ⟨rfl, rfl, ?_, rfl, rfl, by decide⟩
  by_cases hw : s.inWord <;> simp [hw]

/-- C6 witness: the fallback evaluated on a concrete state and carry. -/
theorem eof_carry_fallback_witness :
    (eofCarryStep ⟨0, 0, 2, false, false⟩ [226]).chars = 2 + 1 ∧
      (eofCarryStep ⟨0, 0, 2, false, false⟩ [226]).lastWasNewline = false ∧
      (eofCarryStep ⟨0, 0, 2, false, false⟩ [226]).words =
        (if (false : Bool) then 0 else 0 + 1) ∧
      (eofCarryStep ⟨0, 0, 2, false, false⟩ [226]).inWord = true ∧
      (eofCarryStep ⟨0, 0, 2, false, false⟩ [226]).lines = 0 ∧
      analyzeOne true true [97, 226] [ReadEv.dataEv [97, 226], ReadEv.eofEv []] =
        some ⟨KindT.textK, 1, 1, 2, false⟩ :=
  eof_carry_fallback ⟨0, 0, 2, false, false⟩ [226] (by decide)

/-- C7: after all input is consumed, a state with counted characters whose
last counted codepoint was not the newline gets `lines` incremented exactly
once more; a file of exactly `"\n"` counts `(1, 0, 1)` and `"a b\nc"`
counts `(2, 3, 5)`. -/
theorem final_line_increment (s : Counts) (carry : List Nat)
    (h1 : 0 < (eofCarryStep s carry).chars)
    (h2 : (eofCarryStep s carry).lastWasNewline = false) :
    (finishEOF s carry).lines = (eofCarryStep s carry).lines + 1 ∧
      countFile [[10]] = some (1, 0, 1) ∧
      countFile [[97, 32, 98, 10, 99]] = some (2, 3, 5) := by
  refine ⟨?_, by decide, by decide⟩
  unfold finishEOF finalLineStep
  rw [if_pos ⟨h1, h2⟩]

/-- C7 witness: the final-line rule applied to a concrete post-EOF state. -/
theorem final_line_increment_witness :
    (finishEOF ⟨0, 1, 3, true, false⟩ []).lines = (eofCarryStep ⟨0, 1, 3, true, false⟩ []).lines + 1 ∧
      countFile [[10]] = some (1, 0, 1) ∧
      countFile [[97, 32, 98, 10, 99]] = some (2, 3, 5) :=
  final_line_increment ⟨0, 1, 3, true, false⟩ [] (by decide) (by decide)

/-- C8: for any decoded codepoint other than the newline, `words` is
incremented exactly when the codepoint is non-whitespace and `inWord` was
false, `inWord` afterwards records exactly "the codepoint was
non-whitespace" (so consecutive non-whitespace codepoints never recount),
and whitespace is the full Unicode table — e.g. U+2003 EM SPACE counts as
whitespace while `'A'` does not. -/
theorem word_transition (r : Nat) (s : Counts) (h : r ≠ 10) :
    (countRune r s).words =
        (if isSpace r = false ∧ s.inWord = false then s.words + 1 else s.words) ∧
      (countRune r s).inWord = !isSpace r ∧
      isSpace 0x2003 = true ∧ isSpace 0x41 = false := by
  refine ⟨?_, ?_, by decide, by decide⟩ <;>
    · unfold countRune
      rw [if_neg h]
      by_cases hs : isSpace r
      · rw [if_pos hs]
        simp [hs]
      · rw [if_neg hs]
        by_cases hw : s.inWord <;> simp [hw, hs]

/-- C8 witness: a letter after start-of-text opens a word. -/
theorem word_transition_witness :
    (countRune 65 initCounts).words =
        (if isSpace 65 = false ∧ initCounts.inWord = false then initCounts.words + 1
         else initCounts.words) ∧
      (countRune 65 initCounts).inWord = !isSpace 65 ∧
      isSpace 0x2003 = true ∧ isSpace 0x41 = false :=
  word_transition 65 initCounts (by decide)

/-- C9: whenever the stat fails, the open fails, or the counting read loop
is aborted by a non-EOF read error, `AnalyzeFile` emits exactly one record
for the path, the record is flagged failed, and its three count fields are
zero — the counts accumulated before a mid-stream failure are never copied
into the record (the assignments at analyze.go lines 212-214 are only
reached on success).  The final conjunct shows this concretely: two
characters are counted before the read error, yet the record reports zero. -/
theorem failed_record_no_counts (so oo : Bool) (content : List Nat)
    (reads : List ReadEv)
    (h : so = false ∨ oo = false ∨
      (sniffIsBinary content = false ∧
        runReads reads initCounts [] = some ReadDone.failed)) :
    (∃ st, analyzeOne so oo content reads = some st ∧ st.hasError = true ∧
        st.lines = 0 ∧ st.words = 0 ∧ st.chars = 0) ∧
      analyzeOne true true [97, 98] [ReadEv.dataEv [97, 98], ReadEv.failEv []] =
        some ⟨KindT.textK, 0, 0, 0, true⟩ := by
  refine ⟨?_, by decide⟩
  rcases h with h | h | ⟨h1, h2⟩
  · exact ⟨⟨KindT.unknownK, 0, 0, 0, true⟩, by simp [analyzeOne, h], rfl, rfl, rfl, rfl⟩
  · rcases hso : so with _ | _
    · exact ⟨⟨KindT.unknownK, 0, 0, 0, true⟩, by simp [analyzeOne], rfl, rfl, rfl, rfl⟩
    · exact ⟨⟨KindT.unknownK, 0, 0, 0, true⟩, by simp [analyzeOne, h], rfl, rfl, rfl, rfl⟩
  · rcases hso : so with _ | _
    · exact ⟨⟨KindT.unknownK, 0, 0, 0, true⟩, by simp [analyzeOne], rfl, rfl, rfl, rfl⟩
    · rcases hoo : oo with _ | _
      · exact ⟨⟨KindT.unknownK, 0, 0, 0, true⟩, by simp [analyzeOne], rfl, rfl, rfl, rfl⟩
      · exact ⟨⟨KindT.textK, 0, 0, 0, true⟩, by simp [analyzeOne, h1, h2], rfl, rfl, rfl, rfl⟩

/-- C9 witness: a failed stat, and the concrete mid-stream read failure. -/
theorem failed_record_no_counts_witness :
    (∃ st, analyzeOne false true [97] [] = some st ∧ st.hasError = true ∧
        st.lines = 0 ∧ st.words = 0 ∧ st.chars = 0) ∧
      analyzeOne true true [97, 98] [ReadEv.dataEv [97, 98], ReadEv.failEv []] =
        some ⟨KindT.textK, 0, 0, 0, true⟩ :=
  failed_record_no_counts false true [97] [] (Or.inl rfl)

theorem runeLen_ge2 (b : Nat) (hb : 0xC2 ≤ b) (hb4 : b ≤ 0xF4) : 2 ≤ runeLen b := by
  unfold runeLen
  (repeat' split) <;> omega

theorem runeLen_le4 (b : Nat) : runeLen b ≤ 4 := by
  unfold runeLen
  (repeat' split) <;> omega

theorem decodeRune_short (b : Nat) (bs : List Nat) (hb : 0xC2 ≤ b) (hb4 : b ≤ 0xF4)
    (h : bs.length + 1 < runeLen b) : decodeRune (b :: bs) = (runeError, 1) := by
  simp only [decodeRune]
  rw [if_neg (by omega), if_neg (by omega), if_neg (by omega), if_pos h]

theorem decodeRune_badOne (b b1 : Nat) (bs1 : List Nat) (hb : 0xC2 ≤ b) (hb4 : b ≤ 0xF4)
    (h1 : b1 < acceptLo b ∨ acceptHi b < b1) :
    decodeRune (b :: b1 :: bs1) = (runeError, 1) := by
  by_cases hlen : (b1 :: bs1).length + 1 < runeLen b
  · exact decodeRune_short b _ hb hb4 hlen
  · simp only [decodeRune, decodeTail2]
    rw [if_neg (by omega), if_neg (by omega), if_neg (by omega), if_neg hlen, if_pos h1]

theorem decodeRune_len2 (b b1 : Nat) (bs1 : List Nat) (hb : 0xC2 ≤ b) (hb4 : b ≤ 0xF4)
    (h1 : ¬(b1 < acceptLo b ∨ acceptHi b < b1)) (hL : runeLen b = 2) :
    decodeRune (b :: b1 :: bs1) = ((b % 32) * 64 + b1 % 64, 2) := by
  simp only [decodeRune, decodeTail2]
  rw [if_neg (by omega), if_neg (by omega), if_neg (by omega),
      if_neg (by simp only [List.length_cons]; omega), if_neg h1, if_pos hL]

theorem decodeRune_badTwo (b b1 b2 : Nat) (bs2 : List Nat) (hb : 0xC2 ≤ b) (hb4 : b ≤ 0xF4)
    (h1 : ¬(b1 < acceptLo b ∨ acceptHi b < b1)) (hL : ¬ runeLen b = 2)
    (h2 : b2 < 0x80 ∨ 0xBF < b2) :
    decodeRune (b :: b1 :: b2 :: bs2) = (runeError, 1) := by
  by_cases hlen : (b1 :: b2 :: bs2).length + 1 < runeLen b
  · exact decodeRune_short b _ hb hb4 hlen
  · simp only [decodeRune, decodeTail2, decodeTail3]
    rw [if_neg (by omega), if_neg (by omega), if_neg (by omega), if_neg hlen,
        if_neg h1, if_neg hL, if_pos h2]

theorem decodeRune_len3 (b b1 b2 : Nat) (bs2 : List Nat) (hb : 0xC2 ≤ b) (hb4 : b ≤ 0xF4)
    (h1 : ¬(b1 < acceptLo b ∨ acceptHi b < b1)) (h2 : ¬(b2 < 0x80 ∨ 0xBF < b2))
    (hL : runeLen b = 3) :
    decodeRune (b :: b1 :: b2 :: bs2) =
      ((b % 16) * 4096 + (b1 % 64) * 64 + b2 % 64, 3) := by
  simp only [decodeRune, decodeTail2, decodeTail3]
  rw [if_neg (by omega), if_neg (by omega), if_neg (by omega),
      if_neg (by simp only [List.length_cons]; omega), if_neg h1, if_neg (by omega),
      if_neg h2, if_pos hL]

theorem decodeRune_badThree (b b1 b2 b3 : Nat) (bs3 : List Nat)
    (hb : 0xC2 ≤ b) (hb4 : b ≤ 0xF4)
    (h1 : ¬(b1 < acceptLo b ∨ acceptHi b < b1)) (h2 : ¬(b2 < 0x80 ∨ 0xBF < b2))
    (hL2 : ¬ runeLen b = 2) (hL3 : ¬ runeLen b = 3)
    (h3 : b3 < 0x80 ∨ 0xBF < b3) :
    decodeRune (b :: b1 :: b2 :: b3 :: bs3) = (runeError, 1) := by
  by_cases hlen : (b1 :: b2 :: b3 :: bs3).length + 1 < runeLen b
  · exact decodeRune_short b _ hb hb4 hlen
  · simp only [decodeRune, decodeTail2, decodeTail3, decodeTail4]
    rw [if_neg (by omega), if_neg (by omega), if_neg (by omega), if_neg hlen,
        if_neg h1, if_neg hL2, if_neg h2, if_neg hL3, if_pos h3]

theorem decodeRune_len4 (b b1 b2 b3 : Nat) (bs3 : List Nat)
    (hb : 0xC2 ≤ b) (hb4 : b ≤ 0xF4)
    (h1 : ¬(b1 < acceptLo b ∨ acceptHi b < b1)) (h2 : ¬(b2 < 0x80 ∨ 0xBF < b2))
    (h3 : ¬(b3 < 0x80 ∨ 0xBF < b3)) (hL2 : ¬ runeLen b = 2) (hL3 : ¬ runeLen b = 3) :
    decodeRune (b :: b1 :: b2 :: b3 :: bs3) =
      ((b % 8) * 262144 + (b1 % 64) * 4096 + (b2 % 64) * 64 + b3 % 64, 4) := by
  have h4 := runeLen_le4 b
  simp only [decodeRune, decodeTail2, decodeTail3, decodeTail4]
  rw [if_neg (by omega), if_neg (by omega), if_neg (by omega),
      if_neg (by simp only [List.length_cons]; omega), if_neg h1, if_neg hL2,
      if_neg h2, if_neg hL3, if_neg h3]

theorem fullRune_ge (b : Nat) (bs : List Nat) (h : runeLen b ≤ bs.length + 1) :
    fullRune (b :: bs) = true := by
  simp only [fullRune]
  rw [if_pos h]

theorem fullRune_nil (b : Nat) (h : ¬ runeLen b ≤ 1) : fullRune [b] = false := by
  simp only [fullRune, fullTail2]
  rw [if_neg (by simpa using h)]

theorem fullRune_bad1 (b b1 : Nat) (bs1 : List Nat)
    (hlen : ¬ runeLen b ≤ (b1 :: bs1).length + 1)
    (h1 : b1 < acceptLo b ∨ acceptHi b < b1) : fullRune (b :: b1 :: bs1) = true := by
  simp only [fullRune, fullTail2]
  rw [if_neg hlen, if_pos h1]

theorem fullRune_good1_nil (b b1 : Nat) (hlen : ¬ runeLen b ≤ 2)
    (h1 : ¬(b1 < acceptLo b ∨ acceptHi b < b1)) : fullRune [b, b1] = false := by
  simp only [fullRune, fullTail2, fullTail3]
  rw [if_neg (by simpa using hlen), if_neg h1]

theorem fullRune_bad2 (b b1 b2 : Nat) (bs2 : List Nat)
    (hlen : ¬ runeLen b ≤ (b1 :: b2 :: bs2).length + 1)
    (h1 : ¬(b1 < acceptLo b ∨ acceptHi b < b1))
    (h2 : b2 < 0x80 ∨ 0xBF < b2) : fullRune (b :: b1 :: b2 :: bs2) = true := by
  simp only [fullRune, fullTail2, fullTail3]
  rw [if_neg hlen, if_neg h1]
  simpa using h2

theorem fullRune_good2_nil (b b1 b2 : Nat) (hlen : ¬ runeLen b ≤ 3)
    (h1 : ¬(b1 < acceptLo b ∨ acceptHi b < b1)) (h2 : ¬(b2 < 0x80 ∨ 0xBF < b2)) :
    fullRune [b, b1, b2] = false := by
  simp only [fullRune, fullTail2, fullTail3]
  rw [if_neg (by simpa using hlen), if_neg h1]
  simpa using h2

theorem utf8ScanF_eq_specScanF :
    ∀ (fuel : Nat) (w : List Nat), w.length ≤ fuel →
      utf8ScanF fuel w = specScanF fuel w := by
  intro fuel
  induction fuel with
  | zero =>
    intro w hw
    have hnil : w = [] := List.eq_nil_of_length_eq_zero (Nat.le_zero.mp hw)
    subst hnil
    rfl
  | succ n ih =>
    intro w hw
    cases w with
    | nil => rfl
    | cons b bs =>
      have hw' : bs.length ≤ n := by simpa using hw
      by_cases h7 : b ≤ 0x7F
      · have hd : decodeRune (b :: bs) = (b, 1) := by
          simp only [decodeRune]
          rw [if_pos h7]
        have hne : ¬ b = runeError := by
          simp only [runeError]
          omega
        simp only [utf8ScanF, specScanF, hd, hne, false_and, if_false, if_pos h7,
          List.drop_succ_cons, List.drop_zero]
        exact ih bs hw'
      · by_cases hbad : b ≤ 0xC1 ∨ 0xF5 ≤ b
        · have hd : decodeRune (b :: bs) = (runeError, 1) := by
            simp only [decodeRune]
            rcases hbad with hbad | hbad
            · rw [if_neg h7, if_pos hbad]
            · rw [if_neg h7, if_neg (by omega), if_pos hbad]
          have hrl1 : runeLen b = 1 := by
            unfold runeLen
            (repeat' split) <;> omega
          have hf : fullRune (b :: bs) = true := fullRune_ge b bs (by omega)
          rcases Nat.lt_or_ge 0xC1 b with hgt | hle
          · have hn1 : ¬ b ≤ 0xC1 := by omega
            have h5 : 0xF5 ≤ b := by omega
            simp [utf8ScanF, specScanF, hd, hf, h7, hn1, h5]
          · have hn1 : b ≤ 0xC1 := hle
            simp [utf8ScanF, specScanF, hd, hf, h7, hn1]
        · have hb : 0xC2 ≤ b := by omega
          have hb4 : b ≤ 0xF4 := by omega
          have hn1 : ¬ b ≤ 0xC1 := by omega
          have hn5 : ¬ 0xF5 ≤ b := by omega
          have hge2 := runeLen_ge2 b hb hb4
          have hle4 := runeLen_le4 b
          cases bs with
          | nil =>
            have hd := decodeRune_short b [] hb hb4 (by simp only [List.length_nil]; omega)
            have hf := fullRune_nil b (by omega)
            simp [utf8ScanF, specScanF, checkCont, hd, hf, h7, hn1, hn5]
          | cons b1 bs1 =>
            by_cases hc1 : b1 < acceptLo b ∨ acceptHi b < b1
            · have hd := decodeRune_badOne b b1 bs1 hb hb4 hc1
              have hf : fullRune (b :: b1 :: bs1) = true := by
                rcases le_or_lt (runeLen b) ((b1 :: bs1).length + 1) with h | h
                · exact fullRune_ge b _ h
                · exact fullRune_bad1 b b1 bs1 (by omega) hc1
              simp [utf8ScanF, specScanF, checkCont, hd, hf, h7, hn1, hn5, hc1]
            · by_cases hL2 : runeLen b = 2
              · have hd := decodeRune_len2 b b1 bs1 hb hb4 hc1 hL2
                simp only [utf8ScanF, specScanF, checkCont, hd, hc1, hL2, if_neg h7,
                  if_neg hn1, if_neg hn5, if_false, if_true, if_neg hc1, if_pos rfl]
                have hcond : ¬ ((b % 32) * 64 + b1 % 64 = runeError ∧ (2 : Nat) = 1) := by
                  intro hco
                  omega
                rw [if_neg hcond]
                simp only [List.drop_succ_cons, List.drop_zero]
                exact ih bs1 (by simp only [List.length_cons] at hw'; omega)
              · cases bs1 with
                | nil =>
                  have hd := decodeRune_short b [b1] hb hb4
                    (by simp only [List.length_cons, List.length_nil]; omega)
                  have hf := fullRune_good1_nil b b1 (by omega) hc1
                  simp [utf8ScanF, specScanF, checkCont, contTail3, hd, hf, h7, hn1,
                    hn5, hc1, hL2]
                | cons b2 bs2 =>
                  by_cases hc2 : b2 < 0x80 ∨ 0xBF < b2
                  · have hd := decodeRune_badTwo b b1 b2 bs2 hb hb4 hc1 hL2 hc2
                    have hf : fullRune (b :: b1 :: b2 :: bs2) = true := by
                      rcases le_or_lt (runeLen b) ((b1 :: b2 :: bs2).length + 1) with h | h
                      · exact fullRune_ge b _ h
                      · exact fullRune_bad2 b b1 b2 bs2 (by omega) hc1 hc2
                    simp [utf8ScanF, specScanF, checkCont, contTail3, hd, hf, h7, hn1,
                      hn5, hc1, hL2, hc2]
                  · by_cases hL3 : runeLen b = 3
                    · have hd := decodeRune_len3 b b1 b2 bs2 hb hb4 hc1 hc2 hL3
                      simp only [utf8ScanF, specScanF, checkCont, contTail3, hd, hc1, hc2,
                        hL2, hL3, if_neg h7, if_neg hn1, if_neg hn5, if_neg hc1,
                        if_neg hc2, if_false, if_pos rfl]
                      have hcond : ¬ ((b % 16) * 4096 + (b1 % 64) * 64 + b2 % 64 = runeError ∧
                          (3 : Nat) = 1) := by
                        intro hco
                        omega
                      rw [if_neg hcond]
                      simp only [List.drop_succ_cons, List.drop_zero]
                      exact ih bs2 (by simp only [List.length_cons] at hw'; omega)
                    · have hrl4 : runeLen b = 4 := by omega
                      cases bs2 with
                      | nil =>
                        have hd := decodeRune_short b [b1, b2] hb hb4
                          (by simp only [List.length_cons, List.length_nil]; omega)
                        have hf := fullRune_good2_nil b b1 b2 (by omega) hc1 hc2
                        simp [utf8ScanF, specScanF, checkCont, contTail3, contTail4, hd,
                          hf, h7, hn1, hn5, hc1, hc2, hL2, hL3]
                      | cons b3 bs3 =>
                        by_cases hc3 : b3 < 0x80 ∨ 0xBF < b3
                        · have hd := decodeRune_badThree b b1 b2 b3 bs3 hb hb4 hc1 hc2
                            hL2 hL3 hc3
                          have hf : fullRune (b :: b1 :: b2 :: b3 :: bs3) = true :=
                            fullRune_ge b _ (by simp only [List.length_cons]; omega)
                          simp [utf8ScanF, specScanF, checkCont, contTail3, contTail4, hd,
                            hf, h7, hn1, hn5, hc1, hc2, hc3, hL2, hL3]
                        · have hd := decodeRune_len4 b b1 b2 b3 bs3 hb hb4 hc1 hc2 hc3
                            hL2 hL3
                          simp only [utf8ScanF, specScanF, checkCont, contTail3, contTail4,
                            hd, hc1, hc2, hc3, hL2, hL3, if_neg h7, if_neg hn1, if_neg hn5,
                            if_neg hc1, if_neg hc2, if_neg hc3, if_false]
                          have hcond : ¬ ((b % 8) * 262144 + (b1 % 64) * 4096 +
                              (b2 % 64) * 64 + b3 % 64 = runeError ∧ (4 : Nat) = 1) := by
                            intro hco
                            omega
                          rw [if_neg hcond]
                          simp only [List.drop_succ_cons, List.drop_zero]
                          exact ih bs3 (by simp only [List.length_cons] at hw'; omega)

/-- C5: for any file content, the classifier's verdict is NUL-or-invalid
over the first `min(size, 8192)` bytes only — binary exactly when the sniff
window holds a 0x00 byte or a UTF-8 sequence that is invalid and complete
within the window (`specScanBinary` stops, without flagging, at a sequence
merely truncated by the window boundary) — and a binary verdict
short-circuits `AnalyzeFile` with `lines = words = chars = 0`. -/
theorem classifier_spec (c : List Nat) :
    sniffIsBinary c = (hasNul (c.take 8192) || specScanBinary (c.take 8192)) ∧
      ∀ reads, sniffIsBinary c = true →
        analyzeOne true true c reads = some ⟨KindT.binaryK, 0, 0, 0, false⟩ := by
  constructor
  · cases c with
    | nil => rfl
    | cons b bs =>
      simp only [sniffIsBinary]
      rw [if_neg (by simp)]
      have he := utf8ScanF_eq_specScanF ((b :: bs).take 8192).length
        ((b :: bs).take 8192) le_rfl
      simp only [utf8Scan, specScanBinary]
      rw [he]
  · intro reads hbin
    simp [analyzeOne, hbin]

/-- C5 witness: a one-byte NUL file is classified binary with zero counts. -/
theorem classifier_spec_witness :
    sniffIsBinary [0] =
        (hasNul (([0] : List Nat).take 8192) || specScanBinary (([0] : List Nat).take 8192)) ∧
      analyzeOne true true [0] [] = some ⟨KindT.binaryK, 0, 0, 0, false⟩ :=
  ⟨(classifier_spec [0]).1, (classifier_spec [0]).2 [] (by decide)⟩
